import Mathlib

/-!
Shallow embedding of `jcgregorio/logger` (logger.go).

Bytes are modelled as `Char` (ASCII), byte slices as `List Char`.  The
64-byte scratch array `buffer.tmp` is modelled as a total map
`Nat → Char`.  The mutable logger state (free list of pooled buffers),
the sink (sequence of `Write`/`Sync` calls) and process termination
(`osExit`) are modelled as an explicit state record `St` threaded through
the operations; `acquired`/`returned` are observation counters recording
how many times `getBuffer` ran and how many times `putBuffer` actually
linked a buffer back (they instrument the embedding for accounting
arguments and influence nothing else).

External collaborators are parameters: `runtime.Caller` results appear as
`file`/`line` arguments, `time.Now` as an explicit `Clock` record,
`os.Getpid` as a `pid` argument, `runtime.Stack` as a `trace` argument,
and `fmt.Fprint`/`Fprintf` rendering as the already-rendered message
`msg`.
-/

namespace GoLogger

/-- Sink/process events, in order: a `Write` call with the given bytes, a
`Sync` call, or process termination with the given status. -/
inductive Event where
  | write : List Char → Event
  | sync : Event
  | exit : Nat → Event
deriving DecidableEq

/-- State threaded through the logger operations: the free list of pooled
buffers (each pooled buffer is its byte content at rest), the sequence of
sink/process events so far, and three instrumentation counters (number of
`getBuffer` calls, number of `putBuffer` calls that linked the buffer
back, number of `putBuffer` calls made at all). -/
structure St where
  pool : List (List Char)
  events : List Event
  acquired : Nat
  returned : Nat
  released : Nat
deriving DecidableEq

/-- The empty starting state: fresh logger, nothing written. -/
def emptySt : St := ⟨[], [], 0, 0, 0⟩

/-- getBuffer (logger.go): return the head buffer of the free list, reset
to empty, advancing the head; or a fresh empty buffer when the list is
empty.  The returned component is the buffer's content after `Reset`. -/
def getBuffer : List (List Char) → List Char × List (List Char)
  | [] => ([], [])
  | _b :: rest => ([], rest)

/-- putBuffer (logger.go): link `b` back onto the head of the free list,
unless its length is at least 256, in which case it is dropped. -/
def putBuffer (b : List Char) (pool : List (List Char)) : List (List Char) :=
  if 256 ≤ b.length then pool else b :: pool

/-- State-level wrapper of `getBuffer`, counting the acquisition. -/
def stGetBuffer (st : St) : List Char × St :=
  let r := getBuffer st.pool
  (r.1, { st with pool := r.2, acquired := st.acquired + 1 })

/-- State-level wrapper of `putBuffer`, counting the call (`released`)
and whether it actually linked the buffer back (`returned`). -/
def stPutBuffer (b : List Char) (st : St) : St :=
  { st with
    pool := putBuffer b st.pool
    returned := st.returned + (if 256 ≤ b.length then 0 else 1)
    released := st.released + 1 }

/-- Model of `bytes.Split` with the one-byte separator `sep`: split into
all subslices separated by `sep`, keeping empty segments; the empty input
yields one empty segment. -/
def splitB (sep : Char) : List Char → List (List Char)
  | [] => [[]]
  | c :: rest =>
    if c = sep then [] :: splitB sep rest
    else (splitB sep rest).modifyHead (c :: ·)

/-- The digit table `digits = "0123456789"` (logger.go). -/
def digitsL : List Char := ['0', '1', '2', '3', '4', '5', '6', '7', '8', '9']

/-- Index into the digit table. -/
def digitAt (d : Nat) : Char := digitsL.getD d '?'

/-- The severity table `severityChar = "DIWEF"` (logger.go). -/
def sevCharAt (s : Nat) : Char := (['D', 'I', 'W', 'E', 'F']).getD s '?'

/-- Pointwise update of the scratch array model. -/
def upd (f : Nat → Char) (i : Nat) (c : Char) : Nat → Char :=
  fun j => if j = i then c else f j

/-- twoDigits (logger.go): `tmp[i+1] = digits[d%10]; d /= 10;
tmp[i] = digits[d%10]`. -/
def twoDigits (tmp : Nat → Char) (i d : Nat) : Nat → Char :=
  upd (upd tmp (i + 1) (digitAt (d % 10))) i (digitAt (d / 10 % 10))

/-- The second loop of nDigits: fill the remaining `c` left positions
`tmp[i] .. tmp[i+c-1]` with `pad` (descending, as in the source). -/
def padFill (tmp : Nat → Char) (i : Nat) : Nat → Char → (Nat → Char)
  | 0, _ => tmp
  | c + 1, pad => padFill (upd tmp (i + c) pad) i c pad

/-- The body of nDigits (logger.go): `j` counts `c` remaining positions;
while `d > 0` write `digits[d%10]` at `tmp[i+j]` moving left, then pad the
rest. -/
def nDigitsFill (tmp : Nat → Char) (i : Nat) : Nat → Nat → Char → (Nat → Char)
  | 0, _, _ => tmp
  | c + 1, d, pad =>
    if 0 < d then nDigitsFill (upd tmp (i + c) (digitAt (d % 10))) i c (d / 10) pad
    else padFill tmp i (c + 1) pad

/-- nDigits (logger.go): format a `n`-digit integer at `tmp[i]`, padding
with `pad` on the left.  Assumes `d ≥ 0` (here `d : Nat`). -/
def nDigits (tmp : Nat → Char) (n i d : Nat) (pad : Char) : Nat → Char :=
  nDigitsFill tmp i n d pad

/-- The do-while loop of someDigits (logger.go): decrement `j`, write
`digits[d%10]` at `tmp[j]`, divide `d` by 10, stop when `d` reaches 0.
Returns the updated scratch and the final `j`.  The `j = 0` case is
unreachable for the 64-byte scratch and Go `int` inputs (at most 19
digits); Go would panic there on the index `-1`. -/
def someDigitsLoop : (Nat → Char) → Nat → Nat → (Nat → Char) × Nat
  | tmp, 0, _ => (tmp, 0)
  | tmp, j + 1, d =>
    let tmp' := upd tmp j (digitAt (d % 10))
    if d / 10 = 0 then (tmp', j) else someDigitsLoop tmp' j (d / 10)

/-- One step of Go `copy(dst, src)` semantics into the scratch array:
write the elements of `src` at consecutive positions starting at `i`. -/
def copyList (tmp : Nat → Char) : Nat → List Char → (Nat → Char)
  | _, [] => tmp
  | i, c :: cs => copyList (upd tmp i c) (i + 1) cs

/-- someDigits (logger.go): print `d` into the top of the 64-byte scratch,
then `copy(tmp[i:], tmp[j:])`; returns the updated scratch and the number
of bytes copied. -/
def someDigits (tmp : Nat → Char) (i d : Nat) : (Nat → Char) × Nat :=
  let r := someDigitsLoop tmp 64 d
  let cnt := min (64 - i) (64 - r.2)
  let src := (List.range cnt).map fun k => r.1 (r.2 + k)
  (copyList r.1 i src, cnt)

/-- Read `n` consecutive scratch bytes starting at position `i`. -/
def readSeg (tmp : Nat → Char) (i n : Nat) : List Char :=
  (List.range n).map fun k => tmp (i + k)

/-- The current wall-clock fields used by formatHeader: `now.Date()`
month and day, `now.Clock()` hour/minute/second, and `now.Nanosecond()`. -/
structure Clock where
  month : Nat
  day : Nat
  hour : Nat
  minute : Nat
  second : Nat
  nanosecond : Nat
deriving DecidableEq

/-- The scratch array after the fixed 30-byte prefix of formatHeader
(logger.go) has been rendered: severity character, two-digit month and
day, space, `hh:mm:ss.uuuuuu`, space, 7-wide space-padded pid, space.
The scratch of a buffer fresh from the pool starts as zero bytes; every
byte of `tmp[0:30]` is written before it is read, so this choice is
immaterial. -/
def tmpAfterPrefix (s : Nat) (now : Clock) (pid : Nat) : Nat → Char :=
  upd
    (nDigits
      (upd
        (nDigits
          (upd
            (twoDigits
              (upd
                (twoDigits
                  (upd
                    (twoDigits
                      (upd
                        (twoDigits
                          (twoDigits
                            (upd (fun _ => Char.ofNat 0) 0 (sevCharAt s))
                            1 now.month)
                          3 now.day)
                        5 ' ')
                      6 now.hour)
                    8 ':')
                  9 now.minute)
                11 ':')
              12 now.second)
            14 '.')
          6 15 (now.nanosecond / 1000) '0')
        21 ' ')
      7 22 pid ' ')
    29 ' '

/-- The bytes formatHeader (logger.go) appends after the prefix and file
name: the scratch receives `:` at position 0, the line number via
someDigits at position 1, then `]` and a space, and `tmp[:n+3]` is
written out. -/
def headerTailSeg (t : Nat → Char) (d : Nat) : List Char :=
  let r := someDigits (upd t 0 ':') 1 d
  readSeg (upd (upd r.1 (r.2 + 1) ']') (r.2 + 2) ' ') 0 (r.2 + 3)

/-- The bytes appended to the buffer by formatHeader (logger.go): the
30-byte prefix, the file name, then `:`, the line number in minimal-width
decimal via someDigits, `]` and a space.  Severity above fatal is clamped
to info and a negative line to 0, exactly as in the source. -/
def headerBytes (s : Nat) (file : List Char) (line : Int) (now : Clock) (pid : Nat) :
    List Char :=
  let line := if line < 0 then 0 else line
  let s := if 4 < s then 1 else s
  let t14 := tmpAfterPrefix s now pid
  readSeg t14 0 30 ++ file ++ headerTailSeg t14 line.toNat

/-- formatHeader (logger.go): acquire a buffer from the pool and render
the header into it; returns the buffer content and the remaining pool. -/
def formatHeader (s : Nat) (file : List Char) (line : Int) (now : Clock) (pid : Nat)
    (pool : List (List Char)) : List Char × List (List Char) :=
  let r := getBuffer pool
  (r.1 ++ headerBytes s file line now pid, r.2)

/-- The loop body of emitAsOneOrMoreLogLinesImpl (logger.go): for each
line, skip it when empty, otherwise acquire a buffer, concatenate header,
line and a line break, write it to the sink in a single call and return
the buffer to the pool. -/
def emitLines (header : List Char) : List (List Char) → St → St
  | [], st => st
  | pline :: rest, st =>
    if pline.length = 0 then emitLines header rest st
    else
      let r := stGetBuffer st
      let line := r.1 ++ header ++ pline ++ ['\n']
      let st2 := { r.2 with events := r.2.events ++ [Event.write line] }
      emitLines header rest (stPutBuffer line st2)

/-- emitAsOneOrMoreLogLinesImpl (logger.go): split the message buffer on
line breaks and emit each non-empty line prefixed with the header. -/
def emitAsOneOrMoreLogLinesImpl (buf header : List Char) (st : St) : St :=
  emitLines header (splitB '\n' buf) st

/-- emitAsOneOrMoreLogLines (logger.go): emit the message lines; on fatal
severity additionally capture a stack trace (`trace`, external), emit it
through the same path with the same header, `Sync` the sink and terminate
the process with status 255.  `osExit` does not return, so nothing after
this call runs on the fatal path. -/
def emitAsOneOrMoreLogLines (s : Nat) (buf header trace : List Char) (st : St) : St :=
  let st1 := emitAsOneOrMoreLogLinesImpl buf header st
  if s = 4 then
    let r := stGetBuffer st1
    let st3 := emitAsOneOrMoreLogLinesImpl (r.1 ++ trace) header r.2
    { st3 with events := st3.events ++ [Event.sync, Event.exit 255] }
  else st1

/-- printDepth/printf (logger.go): format the header (which acquires one
buffer), acquire the message buffer, render the arguments into it (the
rendered bytes are the parameter `msg`), emit, and return the message
buffer to the pool.  On the fatal path `emitAsOneOrMoreLogLines` does not
return (`osExit`), so the final putBuffer runs only for non-fatal
severities. -/
def print (s : Nat) (msg file : List Char) (line : Int) (now : Clock) (pid : Nat)
    (trace : List Char) (st : St) : St :=
  let hr := formatHeader s file line now pid st.pool
  let st0 := { st with pool := hr.2, acquired := st.acquired + 1 }
  let br := stGetBuffer st0
  let buf := br.1 ++ msg
  let st1 := emitAsOneOrMoreLogLines s buf hr.1 trace br.2
  if s = 4 then st1 else stPutBuffer buf st1

/-- Debug/Debugf (logger.go): forward to print at severity debug only
when the logger was built with `IncludeDebug`. -/
def debugM (includeDebug : Bool) (msg file : List Char) (line : Int) (now : Clock)
    (pid : Nat) (trace : List Char) (st : St) : St :=
  if includeDebug then print 0 msg file line now pid trace st else st

/-- Info/Infof (logger.go). -/
def infoM (msg file : List Char) (line : Int) (now : Clock) (pid : Nat)
    (trace : List Char) (st : St) : St :=
  print 1 msg file line now pid trace st

/-- Warning/Warningf (logger.go). -/
def warningM (msg file : List Char) (line : Int) (now : Clock) (pid : Nat)
    (trace : List Char) (st : St) : St :=
  print 2 msg file line now pid trace st

/-- Error/Errorf (logger.go). -/
def errorM (msg file : List Char) (line : Int) (now : Clock) (pid : Nat)
    (trace : List Char) (st : St) : St :=
  print 3 msg file line now pid trace st

/-- Fatal/Fatalf (logger.go). -/
def fatalM (msg file : List Char) (line : Int) (now : Clock) (pid : Nat)
    (trace : List Char) (st : St) : St :=
  print 4 msg file line now pid trace st

/-- Raw (logger.go): write `s` to the sink, then read the last byte
`s[len(s)-1]`; when it is not a line break, write one.  For the empty
string the index is out of range (Go panics), modelled as `none`. -/
def Raw (s : List Char) (st : St) : Option St :=
  let st1 := { st with events := st.events ++ [Event.write s] }
  match s.getLast? with
  | none => none
  | some c => some (if c ≠ '\n' then { st1 with events := st1.events ++ [Event.write ['\n']] } else st1)

/-! Specification-side vocabulary: decimal renderings and the expected
sink writes, used to state the properties the header encoder and line
emitter are proved to satisfy. -/

/-- Fuel-driven minimal decimal rendering; `fuel` bounds the recursion
depth so the definition is structural. -/
def decCharsGo (fuel d : Nat) : List Char :=
  match fuel with
  | 0 => []
  | f + 1 => if d < 10 then [digitAt d] else decCharsGo f (d / 10) ++ [digitAt (d % 10)]

/-- Minimal-width decimal rendering of a natural number: no leading
zeros, and `0` renders as `"0"`. -/
def decChars (d : Nat) : List Char := decCharsGo (d + 1) d

/-- Fuel-driven decimal digit count. -/
def digLenGo (fuel d : Nat) : Nat :=
  match fuel with
  | 0 => 0
  | f + 1 => if d = 0 then 0 else digLenGo f (d / 10) + 1

/-- Decimal digit count of a natural number, with `digLen 0 = 0`. -/
def digLen (d : Nat) : Nat := digLenGo (d + 1) d

/-- Width-`w` zero-padded decimal rendering (for `d < 10 ^ w`). -/
def zeroPad (w d : Nat) : List Char :=
  List.replicate (w - (decChars d).length) '0' ++ decChars d

/-- The contents an `n`-wide nDigits field: the lowest digits of `d`
from the left recursion, padded on the left once `d` runs out. -/
def fieldChars (pad : Char) : Nat → Nat → List Char
  | 0, _ => []
  | c + 1, d =>
    if 0 < d then fieldChars pad c (d / 10) ++ [digitAt (d % 10)]
    else List.replicate (c + 1) pad

/-- The sink writes the line emitter performs for message `buf` under
`header`: one write per non-empty segment of the split, each the header
followed by the segment and a line break. -/
def lineWrites (header buf : List Char) : List Event :=
  ((splitB '\n' buf).filter (fun l => !l.isEmpty)).map
    (fun l => Event.write (header ++ l ++ ['\n']))

/-- All bytes the sink has received: the concatenation of the write
events in order. -/
def writtenBytes (evs : List Event) : List Char :=
  evs.foldr (fun e acc => match e with | Event.write bs => bs ++ acc | _ => acc) []

/-- Number of non-empty segments the line emitter writes for a message:
one sink write, one buffer acquisition and one putBuffer call each. -/
def numEmitted (msg : List Char) : Nat :=
  ((splitB '\n' msg).filter (fun l => !l.isEmpty)).length

/-! Buffer accounting for a concrete non-fatal two-line Info call. -/

/-- A concrete Info call with a two-line message, fixed call site, clock
and pid. -/
def infoTwoLine (st : St) : St :=
  infoM ("foo\nbar".toList) ("example.go".toList) 42 ⟨1, 2, 15, 4, 5, 67890000⟩
    1234 [] st

/-- The free list an `infoTwoLine` call leaves behind: the message buffer
and the last per-line write buffer — the header buffer is absent. -/
def stablePool : List (List Char) :=
  ["foo\nbar".toList,
   "I0102 15:04:05.067890    1234 example.go:42] bar\n".toList]

/-! Basic facts about the scratch-array operations. -/

theorem upd_self (f : Nat → Char) (i : Nat) (c : Char) : upd f i c i = c := by
  simp [upd]

theorem upd_ne (f : Nat → Char) (i : Nat) (c : Char) {j : Nat} (h : j ≠ i) :
    upd f i c j = f j := by
  simp [upd, h]

theorem readSeg_zero (f : Nat → Char) (i : Nat) : readSeg f i 0 = [] := rfl

theorem readSeg_length (f : Nat → Char) (i n : Nat) : (readSeg f i n).length = n := by
  simp [readSeg]

theorem readSeg_succ (f : Nat → Char) (i n : Nat) :
    readSeg f i (n + 1) = readSeg f i n ++ [f (i + n)] := by
  simp [readSeg, List.range_succ]

theorem readSeg_one (f : Nat → Char) (i : Nat) : readSeg f i 1 = [f i] := by
  simp [readSeg, List.range_succ]

theorem readSeg_add (f : Nat → Char) (i m n : Nat) :
    readSeg f i (m + n) = readSeg f i m ++ readSeg f (i + m) n := by
  simp only [readSeg, List.range_add, List.map_append, List.map_map]
  congr 1
  apply List.map_congr_left
  intro k _
  simp [Nat.add_assoc]

theorem readSeg_congr {f g : Nat → Char} {i n : Nat}
    (h : ∀ k, k < n → f (i + k) = g (i + k)) : readSeg f i n = readSeg g i n := by
  simp only [readSeg]
  apply List.map_congr_left
  intro k hk
  exact h k (List.mem_range.mp hk)

theorem readSeg_upd_out (f : Nat → Char) (k : Nat) (c : Char) {i n : Nat}
    (h : k < i ∨ i + n ≤ k) : readSeg (upd f k c) i n = readSeg f i n := by
  apply readSeg_congr
  intro j hj
  exact upd_ne _ _ _ (by omega)

theorem readSeg_upd_self (f : Nat → Char) (i : Nat) (c : Char) :
    readSeg (upd f i c) i 1 = [c] := by
  rw [readSeg_one, upd_self]

theorem twoDigits_out (f : Nat → Char) (i d : Nat) {j : Nat}
    (h : j < i ∨ i + 2 ≤ j) : twoDigits f i d j = f j := by
  unfold twoDigits
  rw [upd_ne _ _ _ (by omega), upd_ne _ _ _ (by omega)]

theorem readSeg_twoDigits_out (f : Nat → Char) (k d : Nat) {i n : Nat}
    (h : i + n ≤ k ∨ k + 2 ≤ i) : readSeg (twoDigits f k d) i n = readSeg f i n := by
  apply readSeg_congr
  intro j hj
  exact twoDigits_out _ _ _ (by omega)

theorem readSeg_twoDigits (f : Nat → Char) (i d : Nat) :
    readSeg (twoDigits f i d) i 2 = [digitAt (d / 10 % 10), digitAt (d % 10)] := by
  show readSeg _ i (1 + 1) = _
  rw [readSeg_add, readSeg_one, readSeg_one]
  unfold twoDigits
  rw [upd_self, upd_ne _ _ _ (by omega), upd_self]
  rfl

theorem padFill_out (f : Nat → Char) (i : Nat) :
    ∀ c pad, ∀ j, (j < i ∨ i + c ≤ j) → padFill f i c pad j = f j := by
  intro c
  induction c generalizing f with
  | zero => intro pad j _; rfl
  | succ c ih =>
    intro pad j hj
    show padFill (upd f (i + c) pad) i c pad j = f j
    rw [ih _ _ _ (by omega), upd_ne _ _ _ (by omega)]

theorem padFill_readSeg (f : Nat → Char) (i : Nat) :
    ∀ c pad, readSeg (padFill f i c pad) i c = List.replicate c pad := by
  intro c
  induction c generalizing f with
  | zero => intro pad; rfl
  | succ c ih =>
    intro pad
    show readSeg (padFill (upd f (i + c) pad) i c pad) i (c + 1) = _
    rw [readSeg_succ, ih, padFill_out _ _ _ _ _ (by omega), upd_self,
      List.replicate_succ']

theorem nDigitsFill_out (f : Nat → Char) (i : Nat) :
    ∀ c d pad, ∀ j, (j < i ∨ i + c ≤ j) → nDigitsFill f i c d pad j = f j := by
  intro c
  induction c generalizing f with
  | zero => intro d pad j _; rfl
  | succ c ih =>
    intro d pad j hj
    show nDigitsFill f i (c + 1) d pad j = f j
    unfold nDigitsFill
    by_cases hd : 0 < d
    · rw [if_pos hd, ih _ _ _ _ (by omega), upd_ne _ _ _ (by omega)]
    · rw [if_neg hd, padFill_out _ _ _ _ _ (by omega)]

theorem nDigitsFill_readSeg (f : Nat → Char) (i : Nat) :
    ∀ c d pad, readSeg (nDigitsFill f i c d pad) i c = fieldChars pad c d := by
  intro c
  induction c generalizing f with
  | zero => intro d pad; rfl
  | succ c ih =>
    intro d pad
    unfold nDigitsFill fieldChars
    by_cases hd : 0 < d
    · rw [if_pos hd, if_pos hd, readSeg_succ, ih,
        nDigitsFill_out _ _ _ _ _ _ (by omega), upd_self]
    · rw [if_neg hd, if_neg hd, padFill_readSeg]

theorem readSeg_nDigits_out (f : Nat → Char) (m k d : Nat) (pad : Char) {i n : Nat}
    (h : i + n ≤ k ∨ k + m ≤ i) : readSeg (nDigits f m k d pad) i n = readSeg f i n := by
  apply readSeg_congr
  intro j hj
  exact nDigitsFill_out _ _ _ _ _ _ (by omega)

theorem readSeg_nDigits (f : Nat → Char) (n i d : Nat) (pad : Char) :
    readSeg (nDigits f n i d pad) i n = fieldChars pad n d :=
  nDigitsFill_readSeg f i n d pad

/-! Facts about the minimal decimal rendering. -/

theorem decCharsGo_eq : ∀ fuel fuel' d, d < fuel → d < fuel' →
    decCharsGo fuel d = decCharsGo fuel' d := by
  intro fuel
  induction fuel with
  | zero => intro fuel' d h _; omega
  | succ f ih =>
    intro fuel' d h h'
    match fuel' with
    | 0 => omega
    | f' + 1 =>
      show (if d < 10 then _ else decCharsGo f (d / 10) ++ _)
          = (if d < 10 then _ else decCharsGo f' (d / 10) ++ _)
      by_cases h10 : d < 10
      · simp [h10]
      · rw [if_neg h10, if_neg h10, ih f' (d / 10) (by omega) (by omega)]

theorem decChars_lt10 {d : Nat} (h : d < 10) : decChars d = [digitAt d] := by
  unfold decChars decCharsGo
  simp [h]

theorem decChars_ge10 {d : Nat} (h : 10 ≤ d) :
    decChars d = decChars (d / 10) ++ [digitAt (d % 10)] := by
  unfold decChars
  show decCharsGo (d + 1) d = decCharsGo (d / 10 + 1) (d / 10) ++ _
  rw [show decCharsGo (d + 1) d
      = if d < 10 then [digitAt d] else decCharsGo d (d / 10) ++ [digitAt (d % 10)] from rfl,
    if_neg (by omega), decCharsGo_eq d (d / 10 + 1) (d / 10) (by omega) (by omega)]

theorem decChars_length_pos (d : Nat) : 0 < (decChars d).length := by
  by_cases h : d < 10
  · rw [decChars_lt10 h]; simp
  · rw [decChars_ge10 (by omega)]; simp

theorem decChars_length_le : ∀ k d, d < 10 ^ (k + 1) → (decChars d).length ≤ k + 1 := by
  intro k
  induction k with
  | zero =>
    intro d h
    rw [decChars_lt10 (by simpa using h)]
    simp
  | succ k ih =>
    intro d h
    by_cases h10 : d < 10
    · rw [decChars_lt10 h10]; simp
    · rw [decChars_ge10 (by omega)]
      have : d / 10 < 10 ^ (k + 1) := by
        rw [Nat.div_lt_iff_lt_mul (by norm_num)]
        calc d < 10 ^ (k + 1 + 1) := h
        _ = 10 ^ (k + 1) * 10 := by ring
      simpa using ih (d / 10) this

theorem digLenGo_eq : ∀ fuel fuel' d, d < fuel → d < fuel' →
    digLenGo fuel d = digLenGo fuel' d := by
  intro fuel
  induction fuel with
  | zero => intro fuel' d h _; omega
  | succ f ih =>
    intro fuel' d h h'
    match fuel' with
    | 0 => omega
    | f' + 1 =>
      show (if d = 0 then 0 else digLenGo f (d / 10) + 1)
          = (if d = 0 then 0 else digLenGo f' (d / 10) + 1)
      by_cases h0 : d = 0
      · simp [h0]
      · rw [if_neg h0, if_neg h0, ih f' (d / 10) (by omega) (by omega)]

theorem digLen_zero : digLen 0 = 0 := rfl

theorem digLen_of_ne {d : Nat} (h : d ≠ 0) : digLen d = digLen (d / 10) + 1 := by
  unfold digLen
  rw [show digLenGo (d + 1) d = if d = 0 then 0 else digLenGo d (d / 10) + 1 from rfl,
    if_neg h, digLenGo_eq d (d / 10 + 1) (d / 10) (by omega) (by omega)]

/-! Facts about nDigits field contents. -/

theorem fieldChars_d0 (pad : Char) : ∀ c, fieldChars pad c 0 = List.replicate c pad := by
  intro c
  cases c with
  | zero => rfl
  | succ c => simp [fieldChars]

theorem fieldChars_length (pad : Char) : ∀ c d, (fieldChars pad c d).length = c := by
  intro c
  induction c with
  | zero => intro d; rfl
  | succ c ih =>
    intro d
    unfold fieldChars
    by_cases hd : 0 < d
    · rw [if_pos hd]; simp [ih]
    · rw [if_neg hd]; simp

theorem fieldChars_pad (pad : Char) :
    ∀ c d, d ≠ 0 → d < 10 ^ c →
      fieldChars pad c d = List.replicate (c - (decChars d).length) pad ++ decChars d := by
  intro c
  induction c with
  | zero => intro d h0 h; omega
  | succ c ih =>
    intro d h0 h
    unfold fieldChars
    rw [if_pos (by omega)]
    by_cases h10 : d < 10
    · rw [Nat.div_eq_of_lt h10, fieldChars_d0, decChars_lt10 h10, Nat.mod_eq_of_lt h10]
      simp
    · have hd10 : d / 10 ≠ 0 := by omega
      have hlt : d / 10 < 10 ^ c := by
        rw [Nat.div_lt_iff_lt_mul (by norm_num)]
        calc d < 10 ^ (c + 1) := h
          _ = 10 ^ c * 10 := by ring
      rw [ih (d / 10) hd10 hlt, decChars_ge10 (by omega : (10:Nat) ≤ d)]
      simp only [List.append_assoc, List.length_append, List.length_singleton]
      rw [show c + 1 - ((decChars (d / 10)).length + 1)
          = c - (decChars (d / 10)).length from by omega]

theorem fieldChars_zeroPad (c d : Nat) (hc : 1 ≤ c) (hd : d < 10 ^ c) :
    fieldChars '0' c d = zeroPad c d := by
  by_cases h0 : d = 0
  · subst h0
    rw [fieldChars_d0]
    unfold zeroPad
    rw [show decChars 0 = ['0'] from rfl]
    simp only [List.length_singleton]
    rw [show c = c - 1 + 1 from by omega, List.replicate_succ']
    simp
  · exact fieldChars_pad '0' c d h0 hd

theorem twoDigits_chars_zeroPad {d : Nat} (h : d < 100) :
    [digitAt (d / 10 % 10), digitAt (d % 10)] = zeroPad 2 d := by
  unfold zeroPad
  by_cases h10 : d < 10
  · rw [decChars_lt10 h10, Nat.div_eq_of_lt h10, Nat.mod_eq_of_lt h10]
    rfl
  · rw [decChars_ge10 (by omega), decChars_lt10 (by omega : d / 10 < 10),
      Nat.mod_eq_of_lt (by omega : d / 10 < 10)]
    simp

/-! Characterization of someDigits: it renders the minimal decimal form. -/

theorem copyList_out : ∀ (l : List Char) (f : Nat → Char) (i j : Nat),
    (j < i ∨ i + l.length ≤ j) → copyList f i l j = f j := by
  intro l
  induction l with
  | nil => intro f i j _; rfl
  | cons c cs ih =>
    intro f i j hj
    show copyList (upd f i c) (i + 1) cs j = f j
    rw [ih _ _ _ (by simp at hj ⊢; omega), upd_ne _ _ _ (by simp at hj; omega)]

theorem copyList_readSeg : ∀ (l : List Char) (f : Nat → Char) (i : Nat),
    readSeg (copyList f i l) i l.length = l := by
  intro l
  induction l with
  | nil => intro f i; rfl
  | cons c cs ih =>
    intro f i
    show readSeg (copyList (upd f i c) (i + 1) cs) i (cs.length + 1) = c :: cs
    rw [show cs.length + 1 = 1 + cs.length from by omega, readSeg_add, readSeg_one,
      copyList_out _ _ _ _ (by omega), upd_self, ih]
    rfl

theorem someDigitsLoop_spec : ∀ (d : Nat) (f : Nat → Char) (j : Nat),
    (decChars d).length ≤ j →
      (someDigitsLoop f j d).2 + (decChars d).length = j
    ∧ readSeg (someDigitsLoop f j d).1 (someDigitsLoop f j d).2 (decChars d).length
        = decChars d
    ∧ ∀ k, (k < j - (decChars d).length ∨ j ≤ k) → (someDigitsLoop f j d).1 k = f k := by
  intro d
  induction d using Nat.strong_induction_on with
  | _ d ih =>
    intro f j hj
    have hpos := decChars_length_pos d
    obtain ⟨j', rfl⟩ : ∃ j', j = j' + 1 := ⟨j - 1, by omega⟩
    have hstep : someDigitsLoop f (j' + 1) d
        = if d / 10 = 0 then (upd f j' (digitAt (d % 10)), j')
          else someDigitsLoop (upd f j' (digitAt (d % 10))) j' (d / 10) := rfl
    by_cases h10 : d / 10 = 0
    · rw [hstep, if_pos h10]
      have hd : d < 10 := by omega
      have hdc : decChars d = [digitAt (d % 10)] := by
        rw [decChars_lt10 hd, Nat.mod_eq_of_lt hd]
      rw [hdc]
      refine ⟨by simp, ?_, ?_⟩
      · simpa using readSeg_upd_self f j' (digitAt (d % 10))
      · intro k hk
        simp only [List.length_singleton] at hk
        exact upd_ne _ _ _ (by omega)
    · rw [hstep, if_neg h10]
      have hge : 10 ≤ d := by omega
      have hdc := decChars_ge10 hge
      have hlen : (decChars d).length = (decChars (d / 10)).length + 1 := by
        rw [hdc]; simp
      have hrec := ih (d / 10) (by omega) (upd f j' (digitAt (d % 10))) j' (by omega)
      have hj2 := hrec.1
      refine ⟨by omega, ?_, ?_⟩
      · rw [hlen, readSeg_add, hrec.2.1, readSeg_one, hj2,
          hrec.2.2 j' (Or.inr (le_refl j')), upd_self, hdc]
      · intro k hk
        rw [hrec.2.2 _ (by omega), upd_ne _ _ _ (by omega)]

theorem someDigits_snd (f : Nat → Char) (i d : Nat) :
    (someDigits f i d).2 = min (64 - i) (64 - (someDigitsLoop f 64 d).2) := rfl

theorem someDigits_fst (f : Nat → Char) (i d : Nat) :
    (someDigits f i d).1
      = copyList (someDigitsLoop f 64 d).1 i
          ((List.range (min (64 - i) (64 - (someDigitsLoop f 64 d).2))).map
            fun k => (someDigitsLoop f 64 d).1 ((someDigitsLoop f 64 d).2 + k)) := rfl

theorem someDigits_spec (f : Nat → Char) (i d : Nat) (hi : 1 ≤ i)
    (hL : (decChars d).length ≤ 64 - i) :
      (someDigits f i d).2 = (decChars d).length
    ∧ readSeg (someDigits f i d).1 i (decChars d).length = decChars d
    ∧ ∀ k, (k < i ∨ (i + (decChars d).length ≤ k ∧ k < 64 - (decChars d).length)) →
        (someDigits f i d).1 k = f k := by
  have hpos := decChars_length_pos d
  have hloop := someDigitsLoop_spec d f 64 (by omega)
  have hj1 := hloop.1
  have h2 : (someDigitsLoop f 64 d).2 = 64 - (decChars d).length := by omega
  rw [someDigits_snd, someDigits_fst, h2]
  rw [show min (64 - i) (64 - (64 - (decChars d).length)) = (decChars d).length from by omega]
  have hsrc : (List.range (decChars d).length).map
      (fun k => (someDigitsLoop f 64 d).1 (64 - (decChars d).length + k)) = decChars d := by
    have := hloop.2.1
    rw [h2] at this
    exact this
  rw [hsrc]
  refine ⟨rfl, copyList_readSeg (decChars d) _ i, ?_⟩
  intro k hk
  rw [copyList_out _ _ _ _ (by omega)]
  exact hloop.2.2 k (by omega)

/-! The 30-byte header prefix, segment by segment. -/

theorem tmpAfterPrefix_readSeg (s : Nat) (now : Clock) (pid : Nat) :
    readSeg (tmpAfterPrefix s now pid) 0 30 =
      [sevCharAt s]
        ++ [digitAt (now.month / 10 % 10), digitAt (now.month % 10)]
        ++ [digitAt (now.day / 10 % 10), digitAt (now.day % 10)]
        ++ [' ']
        ++ [digitAt (now.hour / 10 % 10), digitAt (now.hour % 10)]
        ++ [':'] ++ [digitAt (now.minute / 10 % 10), digitAt (now.minute % 10)]
        ++ [':'] ++ [digitAt (now.second / 10 % 10), digitAt (now.second % 10)]
        ++ ['.'] ++ fieldChars '0' 6 (now.nanosecond / 1000)
        ++ [' '] ++ fieldChars ' ' 7 pid ++ [' '] := by
  unfold tmpAfterPrefix
  rw [show (30 : Nat) = 29 + 1 from rfl, readSeg_succ]
  simp only [Nat.zero_add]
  rw [upd_self, readSeg_upd_out _ _ _ (by omega)]
  rw [show (29 : Nat) = 22 + 7 from rfl, readSeg_add]
  simp only [Nat.zero_add]
  rw [readSeg_nDigits, readSeg_nDigits_out _ _ _ _ _ (by omega)]
  rw [show (22 : Nat) = 21 + 1 from rfl, readSeg_succ]
  simp only [Nat.zero_add]
  rw [upd_self, readSeg_upd_out _ _ _ (by omega)]
  rw [show (21 : Nat) = 15 + 6 from rfl, readSeg_add]
  simp only [Nat.zero_add]
  rw [readSeg_nDigits, readSeg_nDigits_out _ _ _ _ _ (by omega)]
  rw [show (15 : Nat) = 14 + 1 from rfl, readSeg_succ]
  simp only [Nat.zero_add]
  rw [upd_self, readSeg_upd_out _ _ _ (by omega)]
  rw [show (14 : Nat) = 12 + 2 from rfl, readSeg_add]
  simp only [Nat.zero_add]
  rw [readSeg_twoDigits, readSeg_twoDigits_out _ _ _ (by omega)]
  rw [show (12 : Nat) = 11 + 1 from rfl, readSeg_succ]
  simp only [Nat.zero_add]
  rw [upd_self, readSeg_upd_out _ _ _ (by omega)]
  rw [show (11 : Nat) = 9 + 2 from rfl, readSeg_add]
  simp only [Nat.zero_add]
  rw [readSeg_twoDigits, readSeg_twoDigits_out _ _ _ (by omega)]
  rw [show (9 : Nat) = 8 + 1 from rfl, readSeg_succ]
  simp only [Nat.zero_add]
  rw [upd_self, readSeg_upd_out _ _ _ (by omega)]
  rw [show (8 : Nat) = 6 + 2 from rfl, readSeg_add]
  simp only [Nat.zero_add]
  rw [readSeg_twoDigits, readSeg_twoDigits_out _ _ _ (by omega)]
  rw [show (6 : Nat) = 5 + 1 from rfl, readSeg_succ]
  simp only [Nat.zero_add]
  rw [upd_self, readSeg_upd_out _ _ _ (by omega)]
  rw [show (5 : Nat) = 3 + 2 from rfl, readSeg_add]
  simp only [Nat.zero_add]
  rw [readSeg_twoDigits, readSeg_twoDigits_out _ _ _ (by omega)]
  rw [show (3 : Nat) = 1 + 2 from rfl, readSeg_add]
  simp only [Nat.zero_add]
  rw [readSeg_twoDigits, readSeg_twoDigits_out _ _ _ (by omega)]
  rw [readSeg_upd_self]

/-- The tail of the header: the colon, the someDigits-rendered line number
and the closing bracket and space. -/
theorem headerTail_readSeg (f : Nat → Char) (d : Nat)
    (hd : (decChars d).length ≤ 19) :
    readSeg
      (upd (upd (someDigits (upd f 0 ':') 1 d).1 ((someDigits (upd f 0 ':') 1 d).2 + 1) ']')
        ((someDigits (upd f 0 ':') 1 d).2 + 2) ' ')
      0 ((someDigits (upd f 0 ':') 1 d).2 + 3) =
      [':'] ++ decChars d ++ [']', ' '] := by
  have hsp := someDigits_spec (upd f 0 ':') 1 d (by omega) (by omega)
  rw [hsp.1]
  rw [show (decChars d).length + 3 = ((decChars d).length + 2) + 1 from rfl, readSeg_succ]
  simp only [Nat.zero_add]
  rw [upd_self, readSeg_upd_out _ _ _ (by omega)]
  rw [show (decChars d).length + 2 = ((decChars d).length + 1) + 1 from rfl, readSeg_succ]
  simp only [Nat.zero_add]
  rw [upd_self, readSeg_upd_out _ _ _ (by omega)]
  rw [Nat.add_comm (decChars d).length 1, readSeg_add]
  simp only [Nat.zero_add]
  rw [readSeg_one, hsp.2.1]
  rw [hsp.2.2 0 (Or.inl (by omega)), upd_self]
  simp [List.append_assoc]

/-- The tail segment renders the minimal decimal line number between `:`
and `] `. -/
theorem headerTailSeg_spec (t : Nat → Char) (d : Nat)
    (hd : (decChars d).length ≤ 19) :
    headerTailSeg t d = [':'] ++ decChars d ++ [']', ' '] :=
  headerTail_readSeg t d hd

theorem headerBytes_eq (s : Nat) (file : List Char) (line : Int) (now : Clock)
    (pid : Nat) :
    headerBytes s file line now pid
      = readSeg (tmpAfterPrefix (if 4 < s then 1 else s) now pid) 0 30 ++ file
        ++ headerTailSeg (tmpAfterPrefix (if 4 < s then 1 else s) now pid)
            (if line < 0 then 0 else line).toNat := rfl

theorem getBuffer_fst (pool : List (List Char)) : (getBuffer pool).1 = [] := by
  cases pool <;> rfl

theorem formatHeader_fst (s : Nat) (file : List Char) (line : Int) (now : Clock)
    (pid : Nat) (pool : List (List Char)) :
    (formatHeader s file line now pid pool).1 = headerBytes s file line now pid := by
  cases pool <;> rfl

/-! Claim theorems. -/

/-- C1: for every log call with a severity among DEBUG..FATAL, a
nonnegative line number (a Go `int`, hence below `2^63`), a stripped file
name, in-range clock fields and a positive pid of at most 7 digits,
`formatHeader` produces exactly the severity character, two-digit
zero-padded month and day, a space, `hh:mm:ss.` with two-digit zero-padded
fields, six-digit zero-padded microseconds, a space, the pid right-aligned
space-padded to width 7, a space, then the file name, `:`, the line number
in minimal-width decimal with no leading zeros, `]` and a space. -/
theorem c1_formatHeader_bytes (s : Nat) (file : List Char) (line : Int)
    (now : Clock) (pid : Nat) (pool : List (List Char))
    (hs : s ≤ 4) (hl0 : 0 ≤ line) (hl : line < 9223372036854775808)
    (hmo : now.month < 100) (hda : now.day < 100) (hho : now.hour < 100)
    (hmi : now.minute < 100) (hse : now.second < 100)
    (hns : now.nanosecond < 1000000000) (hp1 : 1 ≤ pid) (hp2 : pid < 10000000) :
    (formatHeader s file line now pid pool).1
      = [sevCharAt s]
        ++ zeroPad 2 now.month ++ zeroPad 2 now.day ++ [' ']
        ++ zeroPad 2 now.hour ++ [':'] ++ zeroPad 2 now.minute ++ [':']
        ++ zeroPad 2 now.second ++ ['.'] ++ zeroPad 6 (now.nanosecond / 1000) ++ [' ']
        ++ List.replicate (7 - (decChars pid).length) ' ' ++ decChars pid ++ [' ']
        ++ file ++ [':'] ++ decChars line.toNat ++ [']', ' '] := by
  rw [formatHeader_fst, headerBytes_eq, if_neg (by omega), if_neg (by omega)]
  have hmic : now.nanosecond / 1000 < 10 ^ 6 := by
    have h6 : (10:Nat) ^ 6 = 1000000 := by norm_num
    omega
  have hpid7 : pid < 10 ^ 7 := by
    have h7 : (10:Nat) ^ 7 = 10000000 := by norm_num
    omega
  have hlen : (decChars line.toNat).length ≤ 19 := by
    have h19 : line.toNat < 10 ^ (18 + 1) := by
      have : (10:Nat) ^ 19 = 10000000000000000000 := by norm_num
      omega
    exact decChars_length_le 18 line.toNat h19
  rw [headerTailSeg_spec _ _ hlen, tmpAfterPrefix_readSeg,
    twoDigits_chars_zeroPad hmo, twoDigits_chars_zeroPad hda,
    twoDigits_chars_zeroPad hho, twoDigits_chars_zeroPad hmi,
    twoDigits_chars_zeroPad hse,
    fieldChars_zeroPad 6 _ (by norm_num) hmic,
    fieldChars_pad ' ' 7 pid (by omega) hpid7]
  simp [List.append_assoc]

/-- C1 witness: with clock 2006-01-02 15:04:05.067890 and pid 1234, the
INFO header for example.go:42 is byte-exact. -/
theorem c1_witness :
    (formatHeader 1 ("example.go".toList) 42 ⟨1, 2, 15, 4, 5, 67890000⟩ 1234 []).1
      = "I0102 15:04:05.067890    1234 example.go:42] ".toList := by
  have h := c1_formatHeader_bytes 1 ("example.go".toList) 42 ⟨1, 2, 15, 4, 5, 67890000⟩
    1234 [] (by decide) (by decide) (by decide) (by decide) (by decide) (by decide)
    (by decide) (by decide) (by decide) (by decide) (by decide)
  rw [h]
  decide

/-- C7: formatHeader normalizes its inputs: severity above FATAL renders
exactly as INFO, and a negative line number renders as 0. -/
theorem c7_formatHeader_clamps :
    (∀ (s : Nat) (file : List Char) (line : Int) (now : Clock) (pid : Nat)
        (pool : List (List Char)), 4 < s →
        formatHeader s file line now pid pool = formatHeader 1 file line now pid pool)
  ∧ (∀ (s : Nat) (file : List Char) (line : Int) (now : Clock) (pid : Nat)
        (pool : List (List Char)), line < 0 →
        formatHeader s file line now pid pool = formatHeader s file 0 now pid pool) := by
  constructor
  · intro s file line now pid pool h
    refine Prod.ext ?_ ?_
    · rw [formatHeader_fst, formatHeader_fst, headerBytes_eq, headerBytes_eq, if_pos h]
      norm_num
    · cases pool <;> rfl
  · intro s file line now pid pool h
    refine Prod.ext ?_ ?_
    · rw [formatHeader_fst, formatHeader_fst, headerBytes_eq, headerBytes_eq, if_pos h]
      norm_num
    · cases pool <;> rfl

/-- C7 witness: severity 7 renders as INFO and line -5 renders as 0. -/
theorem c7_witness :
    formatHeader 7 ("f.go".toList) 3 ⟨1, 2, 3, 4, 5, 6⟩ 9 []
      = formatHeader 1 ("f.go".toList) 3 ⟨1, 2, 3, 4, 5, 6⟩ 9 []
  ∧ formatHeader 2 ("f.go".toList) (-5) ⟨1, 2, 3, 4, 5, 6⟩ 9 []
      = formatHeader 2 ("f.go".toList) 0 ⟨1, 2, 3, 4, 5, 6⟩ 9 [] :=
  ⟨c7_formatHeader_clamps.1 7 _ 3 _ 9 [] (by decide),
   c7_formatHeader_clamps.2 2 _ (-5) _ 9 [] (by decide)⟩

/-- The nDigits field renders the padded lowest digits. -/
theorem fieldChars_low (pad : Char) : ∀ n d,
    fieldChars pad n d
      = List.replicate (n - min n (digLen d)) pad
        ++ ((List.range (min n (digLen d))).reverse.map
              fun t => digitAt (d / 10 ^ t % 10)) := by
  intro n
  induction n with
  | zero => intro d; simp [fieldChars]
  | succ n ih =>
    intro d
    by_cases h0 : 0 < d
    · have hdl : digLen d = digLen (d / 10) + 1 := digLen_of_ne (by omega)
      unfold fieldChars
      rw [if_pos h0, ih (d / 10), hdl]
      rw [show min (n + 1) (digLen (d / 10) + 1) = min n (digLen (d / 10)) + 1 from
        by omega]
      rw [show n + 1 - (min n (digLen (d / 10)) + 1) = n - min n (digLen (d / 10)) from
        by omega]
      rw [List.range_succ_eq_map, List.reverse_cons, List.map_append]
      have hmap : (((List.range (min n (digLen (d / 10)))).map Nat.succ).reverse).map
            (fun t => digitAt (d / 10 ^ t % 10))
          = (List.range (min n (digLen (d / 10)))).reverse.map
              (fun t => digitAt (d / 10 / 10 ^ t % 10)) := by
        simp only [List.map_reverse, List.map_map]
        congr 1
        apply List.map_congr_left
        intro t _
        simp only [Function.comp_apply]
        rw [Nat.div_div_eq_div_mul, ← pow_succ']
      rw [hmap]
      simp [List.append_assoc]
    · have hd0 : d = 0 := by omega
      subst hd0
      rw [fieldChars_d0]
      simp [digLen_zero]

/-- The pid field of the header scratch is the 7-wide space-padded
nDigits rendering. -/
theorem tmpAfterPrefix_pidField (s : Nat) (now : Clock) (pid : Nat) :
    readSeg (tmpAfterPrefix s now pid) 22 7 = fieldChars ' ' 7 pid := by
  unfold tmpAfterPrefix
  rw [readSeg_upd_out _ _ _ (by omega), readSeg_nDigits]

/-- C10: nDigits writes exactly the lowest `min n k` decimal digits of
`d` right-aligned in the `n`-byte field (`k` the digit count of `d`, with
`k = 0` for `d = 0`), padding the remaining left positions; consequently
pid 0 renders the header pid field as seven spaces, and a pid of more
than 7 digits is truncated to its lowest 7 digits. -/
theorem c10_nDigits_lowest_digits :
    (∀ (tmp : Nat → Char) (n i d : Nat) (pad : Char),
        readSeg (nDigits tmp n i d pad) i n
          = List.replicate (n - min n (digLen d)) pad
            ++ ((List.range (min n (digLen d))).reverse.map
                  fun t => digitAt (d / 10 ^ t % 10)))
  ∧ (∀ (s : Nat) (file : List Char) (line : Int) (now : Clock)
        (pool : List (List Char)),
        (((formatHeader s file line now 0 pool).1.drop 22).take 7)
          = List.replicate 7 ' ')
  ∧ (((formatHeader 1 ("example.go".toList) 42 ⟨1, 2, 15, 4, 5, 67890000⟩
        12345678 []).1.drop 22).take 7 = "2345678".toList) := by
  refine ⟨?_, ?_, by decide⟩
  · intro tmp n i d pad
    rw [readSeg_nDigits, fieldChars_low]
  · intro s file line now pool
    rw [formatHeader_fst, headerBytes_eq]
    rw [show (30 : Nat) = 22 + (7 + 1) from rfl, readSeg_add, readSeg_add]
    simp only [Nat.zero_add]
    rw [tmpAfterPrefix_pidField, fieldChars_d0]
    rw [List.append_assoc, List.append_assoc, List.append_assoc]
    rw [List.drop_left' (by rw [readSeg_length])]
    rw [List.take_left' (by rw [List.length_replicate])]

/-! The line emitter: its sink writes. -/

theorem stGetBuffer_fst (st : St) : (stGetBuffer st).1 = [] := getBuffer_fst st.pool

theorem stGetBuffer_snd_events (st : St) : (stGetBuffer st).2.events = st.events := rfl

theorem stPutBuffer_events (b : List Char) (st : St) :
    (stPutBuffer b st).events = st.events := rfl

theorem stGetBuffer_snd_acquired (st : St) :
    (stGetBuffer st).2.acquired = st.acquired + 1 := rfl

theorem stGetBuffer_snd_released (st : St) :
    (stGetBuffer st).2.released = st.released := rfl

theorem stPutBuffer_acquired (b : List Char) (st : St) :
    (stPutBuffer b st).acquired = st.acquired := rfl

theorem stPutBuffer_released (b : List Char) (st : St) :
    (stPutBuffer b st).released = st.released + 1 := rfl

theorem emitLines_cons (header p : List Char) (rest : List (List Char)) (st : St) :
    emitLines header (p :: rest) st
      = if p.length = 0 then emitLines header rest st
        else emitLines header rest
          (stPutBuffer ((stGetBuffer st).1 ++ header ++ p ++ ['\n'])
            { (stGetBuffer st).2 with
              events := (stGetBuffer st).2.events
                ++ [Event.write ((stGetBuffer st).1 ++ header ++ p ++ ['\n'])] }) := rfl

theorem emitLines_events (header : List Char) :
    ∀ (ls : List (List Char)) (st : St),
      (emitLines header ls st).events
        = st.events ++ (ls.filter (fun l => !l.isEmpty)).map
            (fun l => Event.write (header ++ l ++ ['\n'])) := by
  intro ls
  induction ls with
  | nil => intro st; simp [emitLines]
  | cons p rest ih =>
    intro st
    rw [emitLines_cons]
    cases p with
    | nil =>
      rw [if_pos (show ([] : List Char).length = 0 from rfl), ih]
      simp [List.filter_cons]
    | cons c cs =>
      rw [if_neg (by simp), ih, stGetBuffer_fst]
      simp [stPutBuffer, stGetBuffer, List.filter_cons, List.append_assoc]

theorem impl_events (buf header : List Char) (st : St) :
    (emitAsOneOrMoreLogLinesImpl buf header st).events
      = st.events ++ lineWrites header buf :=
  emitLines_events header (splitB '\n' buf) st

theorem emitLines_acquired (header : List Char) :
    ∀ (ls : List (List Char)) (st : St),
      (emitLines header ls st).acquired
        = st.acquired + (ls.filter (fun l => !l.isEmpty)).length := by
  intro ls
  induction ls with
  | nil => intro st; simp [emitLines]
  | cons p rest ih =>
    intro st
    rw [emitLines_cons]
    cases p with
    | nil =>
      rw [if_pos (show ([] : List Char).length = 0 from rfl), ih]
      simp [List.filter_cons]
    | cons c cs =>
      rw [if_neg (by simp), ih]
      simp [stPutBuffer, stGetBuffer, List.filter_cons]
      omega

theorem emitLines_released (header : List Char) :
    ∀ (ls : List (List Char)) (st : St),
      (emitLines header ls st).released
        = st.released + (ls.filter (fun l => !l.isEmpty)).length := by
  intro ls
  induction ls with
  | nil => intro st; simp [emitLines]
  | cons p rest ih =>
    intro st
    rw [emitLines_cons]
    cases p with
    | nil =>
      rw [if_pos (show ([] : List Char).length = 0 from rfl), ih]
      simp [List.filter_cons]
    | cons c cs =>
      rw [if_neg (by simp), ih]
      simp [stPutBuffer, stGetBuffer, List.filter_cons]
      omega

theorem emit_acquired_nonfatal (s : Nat) (buf header trace : List Char) (st : St)
    (h : s ≠ 4) :
    (emitAsOneOrMoreLogLines s buf header trace st).acquired
      = st.acquired + numEmitted buf := by
  simp only [emitAsOneOrMoreLogLines]
  rw [if_neg h]
  exact emitLines_acquired header (splitB '\n' buf) st

theorem emit_released_nonfatal (s : Nat) (buf header trace : List Char) (st : St)
    (h : s ≠ 4) :
    (emitAsOneOrMoreLogLines s buf header trace st).released
      = st.released + numEmitted buf := by
  simp only [emitAsOneOrMoreLogLines]
  rw [if_neg h]
  exact emitLines_released header (splitB '\n' buf) st

/-- For every non-fatal print call the acquisitions are the header
buffer, the message buffer and one per emitted line, while the putBuffer
calls are the message buffer and one per emitted line: the header buffer
alone is never released. -/
theorem print_counters_nonfatal (s : Nat) (msg file : List Char) (line : Int)
    (now : Clock) (pid : Nat) (trace : List Char) (st : St) (h : s ≠ 4) :
    (print s msg file line now pid trace st).acquired
        = st.acquired + 2 + numEmitted msg
    ∧ (print s msg file line now pid trace st).released
        = st.released + 1 + numEmitted msg := by
  constructor
  · simp only [print]
    rw [if_neg h, stPutBuffer_acquired, stGetBuffer_fst, List.nil_append,
      emit_acquired_nonfatal _ _ _ _ _ h, stGetBuffer_snd_acquired]
  · simp only [print]
    rw [if_neg h, stPutBuffer_released, stGetBuffer_fst, List.nil_append,
      emit_released_nonfatal _ _ _ _ _ h, stGetBuffer_snd_released]
    simp
    omega

/-- C2: the line emitter splits the message on line breaks, skips the
empty segments, and performs for each remaining segment exactly one sink
write of header ++ segment ++ line break, in order; in particular
"foo\nbar" yields exactly two writes with the identical header and a
trailing line break produces no extra write. -/
theorem c2_line_emitter :
    (∀ (buf header : List Char) (st : St),
        (emitAsOneOrMoreLogLinesImpl buf header st).events
          = st.events ++ ((splitB '\n' buf).filter (fun l => !l.isEmpty)).map
              (fun l => Event.write (header ++ l ++ ['\n'])))
  ∧ (∀ (header : List Char) (st : St),
        (emitAsOneOrMoreLogLinesImpl ("foo\nbar".toList) header st).events
          = st.events ++ [Event.write (header ++ "foo\n".toList),
              Event.write (header ++ "bar\n".toList)])
  ∧ (∀ (header : List Char) (st : St),
        (emitAsOneOrMoreLogLinesImpl ("foo\n".toList) header st).events
          = st.events ++ [Event.write (header ++ "foo\n".toList)]) := by
  refine ⟨fun buf header st => impl_events buf header st, ?_, ?_⟩
  · intro header st
    rw [impl_events]
    congr 1
    have hsplit : ((splitB '\n' ("foo\nbar".toList)).filter (fun l => !l.isEmpty))
        = ["foo".toList, "bar".toList] := by decide
    rw [lineWrites, hsplit]
    have h1 : ("foo".toList ++ ['\n'] : List Char) = "foo\n".toList := by decide
    have h2 : ("bar".toList ++ ['\n'] : List Char) = "bar\n".toList := by decide
    simp [List.append_assoc, h1, h2]
  · intro header st
    rw [impl_events]
    congr 1
    have hsplit : ((splitB '\n' ("foo\n".toList)).filter (fun l => !l.isEmpty))
        = ["foo".toList] := by decide
    rw [lineWrites, hsplit]
    have h1 : ("foo".toList ++ ['\n'] : List Char) = "foo\n".toList := by decide
    simp [List.append_assoc, h1]

/-! The fatal path. -/

theorem emit_eq_fatal (buf header trace : List Char) (st : St) :
    emitAsOneOrMoreLogLines 4 buf header trace st
      = { emitAsOneOrMoreLogLinesImpl
            ((stGetBuffer (emitAsOneOrMoreLogLinesImpl buf header st)).1 ++ trace) header
            (stGetBuffer (emitAsOneOrMoreLogLinesImpl buf header st)).2 with
          events := (emitAsOneOrMoreLogLinesImpl
            ((stGetBuffer (emitAsOneOrMoreLogLinesImpl buf header st)).1 ++ trace) header
            (stGetBuffer (emitAsOneOrMoreLogLinesImpl buf header st)).2).events
            ++ [Event.sync, Event.exit 255] } := rfl

theorem emit_events_nonfatal (s : Nat) (buf header trace : List Char) (st : St)
    (h : s ≠ 4) :
    (emitAsOneOrMoreLogLines s buf header trace st).events
      = st.events ++ lineWrites header buf := by
  simp only [emitAsOneOrMoreLogLines]
  rw [if_neg h, impl_events]

theorem emit_events_fatal (buf header trace : List Char) (st : St) :
    (emitAsOneOrMoreLogLines 4 buf header trace st).events
      = st.events ++ lineWrites header buf ++ lineWrites header trace
        ++ [Event.sync, Event.exit 255] := by
  rw [emit_eq_fatal]
  show (emitAsOneOrMoreLogLinesImpl _ header _).events ++ _ = _
  rw [stGetBuffer_fst, impl_events, stGetBuffer_snd_events, impl_events]
  simp [List.append_assoc]

theorem print_events_nonfatal (s : Nat) (msg file : List Char) (line : Int)
    (now : Clock) (pid : Nat) (trace : List Char) (st : St) (h : s ≠ 4) :
    (print s msg file line now pid trace st).events
      = st.events ++ lineWrites (formatHeader s file line now pid st.pool).1 msg := by
  simp only [print]
  rw [if_neg h, stPutBuffer_events, emit_events_nonfatal _ _ _ _ _ h,
    stGetBuffer_fst, stGetBuffer_snd_events]
  simp

/-- C3: process termination happens exactly on the fatal severity, with
status 255, after the message lines, the stack trace emitted through the
same path with the original header, and the sink Sync, in that order; for
severities below fatal no entry point adds a termination event. -/
theorem c3_fatal_termination :
    (∀ (s : Nat) (buf header trace : List Char) (st : St), s ≠ 4 →
        (emitAsOneOrMoreLogLines s buf header trace st).events
          = st.events ++ lineWrites header buf)
  ∧ (∀ (buf header trace : List Char) (st : St),
        (emitAsOneOrMoreLogLines 4 buf header trace st).events
          = st.events ++ lineWrites header buf ++ lineWrites header trace
            ++ [Event.sync, Event.exit 255])
  ∧ (∀ (s : Nat) (msg file : List Char) (line : Int) (now : Clock) (pid : Nat)
        (trace : List Char) (st : St) (c : Nat), s < 4 →
        Event.exit c ∈ (print s msg file line now pid trace st).events →
        Event.exit c ∈ st.events)
  ∧ (∀ (dbg : Bool) (msg file : List Char) (line : Int) (now : Clock) (pid : Nat)
        (trace : List Char) (st : St) (c : Nat),
        (Event.exit c ∈ (debugM dbg msg file line now pid trace st).events →
            Event.exit c ∈ st.events)
      ∧ (Event.exit c ∈ (infoM msg file line now pid trace st).events →
            Event.exit c ∈ st.events)
      ∧ (Event.exit c ∈ (warningM msg file line now pid trace st).events →
            Event.exit c ∈ st.events)
      ∧ (Event.exit c ∈ (errorM msg file line now pid trace st).events →
            Event.exit c ∈ st.events)) := by
  have hnoexit : ∀ (header buf : List Char) (c : Nat),
      Event.exit c ∉ lineWrites header buf := by
    intro header buf c hmem
    obtain ⟨l, _, hl⟩ := List.mem_map.mp hmem
    exact Event.noConfusion hl
  have hprint : ∀ (s : Nat) (msg file : List Char) (line : Int) (now : Clock)
      (pid : Nat) (trace : List Char) (st : St) (c : Nat), s < 4 →
      Event.exit c ∈ (print s msg file line now pid trace st).events →
      Event.exit c ∈ st.events := by
    intro s msg file line now pid trace st c hs hmem
    rw [print_events_nonfatal _ _ _ _ _ _ _ _ (by omega)] at hmem
    rcases List.mem_append.mp hmem with h1 | h2
    · exact h1
    · exact absurd h2 (hnoexit _ _ _)
  refine ⟨fun s buf header trace st h => emit_events_nonfatal s buf header trace st h,
    fun buf header trace st => emit_events_fatal buf header trace st, hprint, ?_⟩
  intro dbg msg file line now pid trace st c
  refine ⟨?_, hprint 1 _ _ _ _ _ _ _ _ (by omega), hprint 2 _ _ _ _ _ _ _ _ (by omega),
    hprint 3 _ _ _ _ _ _ _ _ (by omega)⟩
  cases dbg with
  | false => intro h; exact h
  | true => exact hprint 0 _ _ _ _ _ _ _ _ (by omega)

/-- C3 witness: a non-fatal emission adds only the line writes, at a
concrete input. -/
theorem c3_witness :
    (emitAsOneOrMoreLogLines 1 ("x".toList) ("H".toList) ("t".toList) emptySt).events
      = emptySt.events ++ lineWrites ("H".toList) ("x".toList) :=
  c3_fatal_termination.1 1 ("x".toList) ("H".toList) ("t".toList) emptySt (by decide)

/-- C5: getBuffer returns the head of the free list reset to empty
(advancing the head) when it is non-empty and a fresh empty buffer when
it is empty; putBuffer links the buffer back iff its length is below
256 bytes, and drops it otherwise leaving the list unchanged. -/
theorem c5_buffer_pool :
    (getBuffer ([] : List (List Char)) = ([], []))
  ∧ (∀ (b : List Char) (rest : List (List Char)), getBuffer (b :: rest) = ([], rest))
  ∧ (∀ (b : List Char) (pool : List (List Char)), b.length < 256 →
        putBuffer b pool = b :: pool)
  ∧ (∀ (b : List Char) (pool : List (List Char)), 256 ≤ b.length →
        putBuffer b pool = pool) := by
  refine ⟨rfl, fun b rest => rfl, ?_, ?_⟩
  · intro b pool h
    unfold putBuffer
    rw [if_neg (by omega)]
  · intro b pool h
    unfold putBuffer
    rw [if_pos h]

/-- C5 witness: a small buffer is linked back, a 256-byte one dropped. -/
theorem c5_witness :
    putBuffer ("ab".toList) [] = ["ab".toList]
  ∧ putBuffer (List.replicate 256 'a') ["x".toList] = ["x".toList] :=
  ⟨c5_buffer_pool.2.2.1 ("ab".toList) [] (by decide),
   c5_buffer_pool.2.2.2 (List.replicate 256 'a') ["x".toList]
     (by rw [List.length_replicate])⟩

/-! Raw and the written byte stream. -/

theorem writtenBytes_append (a b : List Event) :
    writtenBytes (a ++ b) = writtenBytes a ++ writtenBytes b := by
  induction a with
  | nil => rfl
  | cons e rest ih =>
    cases e <;> simp [writtenBytes, List.foldr_cons, List.append_assoc] <;>
      simpa [writtenBytes] using ih

/-- C6: Raw writes `s` verbatim and appends one extra line-break write
exactly when `s` does not already end in a line break; the bytes the
sink receives are `s` plus at most one line break, never doubled. -/
theorem c6_raw (s : List Char) (c : Char) (st : St) (h : s.getLast? = some c) :
    Raw s st = some { st with events := st.events ++ [Event.write s]
          ++ (if c = '\n' then [] else [Event.write ['\n']]) }
  ∧ writtenBytes (st.events ++ [Event.write s]
        ++ (if c = '\n' then [] else [Event.write ['\n']]))
      = writtenBytes st.events ++ s ++ (if c = '\n' then [] else ['\n']) := by
  constructor
  · simp only [Raw]
    rw [h]
    by_cases hc : c = '\n'
    · subst hc
      simp
    · simp [hc, List.append_assoc]
  · have hW : ∀ bs : List Char, writtenBytes [Event.write bs] = bs := fun bs => by
      simp [writtenBytes]
    have hW2 : ∀ bs cs : List Char,
        writtenBytes [Event.write bs, Event.write cs] = bs ++ cs := fun bs cs => by
      simp [writtenBytes]
    by_cases hc : c = '\n' <;>
      simp [hc, writtenBytes_append, hW, hW2, List.append_assoc]

/-- C6 witness: Raw("test") and Raw("test\n") both leave the sink with
exactly the bytes "test\n". -/
theorem c6_witness :
    (Raw ("test".toList) emptySt
        = some { emptySt with
            events := [Event.write ("test".toList), Event.write ['\n']] }
      ∧ writtenBytes [Event.write ("test".toList), Event.write ['\n']]
          = "test\n".toList)
  ∧ (Raw ("test\n".toList) emptySt
        = some { emptySt with events := [Event.write ("test\n".toList)] }
      ∧ writtenBytes [Event.write ("test\n".toList)] = "test\n".toList) := by
  have h1 := (c6_raw ("test".toList) 't' emptySt (by decide)).1
  have h2 := (c6_raw ("test\n".toList) '\n' emptySt (by decide)).1
  refine ⟨⟨?_, by decide⟩, ⟨?_, by decide⟩⟩
  · rw [h1]; decide
  · rw [h2]; decide

/-- C9: Raw reads the last byte unconditionally, so the out-of-range
branch is reachable exactly for the empty string: Raw is total (returns a
state) precisely on non-empty inputs. -/
theorem c9_raw_empty_panics :
    (∀ st : St, Raw [] st = none)
  ∧ (∀ (s : List Char) (st : St), s ≠ [] → (Raw s st).isSome = true) := by
  constructor
  · intro st; rfl
  · intro s st hs
    have hsome : s.getLast?.isSome = true := List.getLast?_isSome.mpr hs
    obtain ⟨c, hc⟩ := Option.isSome_iff_exists.mp hsome
    simp only [Raw]
    rw [hc]
    by_cases h : c = '\n' <;> simp [h]

/-- C9 witness: Raw is defined at a concrete non-empty input. -/
theorem c9_witness : (Raw ("t".toList) emptySt).isSome = true :=
  c9_raw_empty_panics.2 ("t".toList) emptySt (by decide)

/-- C8: with debug output disabled Debug touches nothing — no sink
writes, no state change; with it enabled it behaves exactly as the print
path at the debug severity, whose header starts with the `D` character. -/
theorem c8_debug_gate :
    (∀ (msg file : List Char) (line : Int) (now : Clock) (pid : Nat)
        (trace : List Char) (st : St),
        debugM false msg file line now pid trace st = st)
  ∧ (∀ (msg file : List Char) (line : Int) (now : Clock) (pid : Nat)
        (trace : List Char) (st : St),
        debugM true msg file line now pid trace st
          = print 0 msg file line now pid trace st)
  ∧ (∀ (msg file : List Char) (line : Int) (now : Clock) (pid : Nat)
        (trace : List Char) (st : St),
        (debugM true msg file line now pid trace st).events
          = st.events ++ lineWrites (formatHeader 0 file line now pid st.pool).1 msg)
  ∧ (∀ (file : List Char) (line : Int) (now : Clock) (pid : Nat)
        (pool : List (List Char)),
        ((formatHeader 0 file line now pid pool).1).head? = some 'D') := by
  refine ⟨fun _ _ _ _ _ _ _ => rfl, fun _ _ _ _ _ _ _ => rfl, ?_, ?_⟩
  · intro msg file line now pid trace st
    exact print_events_nonfatal 0 msg file line now pid trace st (by omega)
  · intro file line now pid pool
    rw [formatHeader_fst, headerBytes_eq, tmpAfterPrefix_readSeg]
    simp [sevCharAt]


/-- C4 counterexample: the two-line Info call from the empty pool
acquires four buffers (header, message, and one per line) but only three
putBuffer calls happen and only three buffers are linked back — the
header buffer is never returned — so the free list ends with two
buffers, not all working buffers. -/
theorem c4_counterexample :
    (infoTwoLine emptySt).acquired = 4 ∧ (infoTwoLine emptySt).returned = 3
  ∧ (infoTwoLine emptySt).released = 3
  ∧ (infoTwoLine emptySt).acquired ≠ (infoTwoLine emptySt).returned
  ∧ (infoTwoLine emptySt).pool.length = 2 := by decide

/-- C4 amended: for every completed non-fatal log call, every buffer
acquired from the Buffer Pool during the call except the header buffer —
the message buffer and each per-line write buffer — is handed back to
the pool via putBuffer by the end of the call, and the header buffer
never is, so putBuffer calls fall exactly one short of acquisitions;
after the two-line Info call the free list holds the message buffer and
the final per-line buffer, and repeated identical calls do not grow it. -/
theorem c4_amended :
    (∀ (s : Nat) (msg file : List Char) (line : Int) (now : Clock) (pid : Nat)
        (trace : List Char) (st : St), s ≠ 4 →
        (print s msg file line now pid trace st).acquired
            = st.acquired + 2 + numEmitted msg
        ∧ (print s msg file line now pid trace st).released
            = st.released + 1 + numEmitted msg)
  ∧ (infoTwoLine emptySt).pool.length = 2
  ∧ (∀ n : Nat, (infoTwoLine^[n + 1] emptySt).pool = stablePool)
  ∧ (∀ n : Nat, (infoTwoLine^[n + 1] emptySt).pool.length = 2) := by
  have key : ∀ (e : List Event) (a r rl : Nat),
      (infoTwoLine ⟨stablePool, e, a, r, rl⟩).pool = stablePool := fun e a r rl => rfl
  have hiter : ∀ n : Nat, (infoTwoLine^[n + 1] emptySt).pool = stablePool := by
    intro n
    induction n with
    | zero => decide
    | succ n ih =>
      rw [Function.iterate_succ_apply']
      have hst : infoTwoLine^[n + 1] emptySt
          = ⟨stablePool, (infoTwoLine^[n + 1] emptySt).events,
             (infoTwoLine^[n + 1] emptySt).acquired,
             (infoTwoLine^[n + 1] emptySt).returned,
             (infoTwoLine^[n + 1] emptySt).released⟩ := by
        rw [← ih]
      rw [hst, key]
  exact ⟨fun s msg file line now pid trace st h =>
      print_counters_nonfatal s msg file line now pid trace st h,
    by decide, hiter, fun n => by rw [hiter n]; rfl⟩

/-- C4 witness: at the concrete two-line Info call the amended accounting
gives four acquisitions and three putBuffer calls. -/
theorem c4_witness :
    (infoTwoLine emptySt).acquired = 0 + 2 + numEmitted ("foo\nbar".toList)
  ∧ (infoTwoLine emptySt).released = 0 + 1 + numEmitted ("foo\nbar".toList) :=
  c4_amended.1 1 ("foo\nbar".toList) ("example.go".toList) 42
    ⟨1, 2, 15, 4, 5, 67890000⟩ 1234 [] emptySt (by decide)

end GoLogger
